import Mathlib

/-!
Verification development for the Job Dispatch & Engine Capability Resolution
subsystem of the `api-server` crate (ConvertX-CN).

The Rust source is shallowly embedded:
* `HashMap` values are modelled as association lists `List (κ × α)`; the list
  order abstracts the map's (unspecified) iteration order, and lookup returns
  the first matching entry (keys are unique in every map the program builds).
* `Uuid` is modelled as `Nat`, `DateTime<Utc>` / `timestamp()` as `Int`;
  functions that call `Utc::now()` / `Uuid::new_v4()` receive the produced
  value as an explicit `now` / `id` argument.
* `serde_json::Value` option blobs are opaque and modelled as `Option String`.
* Rust's `to_lowercase` / `eq_ignore_ascii_case` on the ASCII format tokens
  used by the program are modelled with the per-character `lowercase` below.
-/

namespace ConvertX

/-! ### Association-list model of `HashMap` -/

/-- First-match lookup, the model of `HashMap::get`. -/
def assocLookup {κ α : Type} [DecidableEq κ] (m : List (κ × α)) (k : κ) : Option α :=
  match m with
  | [] => none
  | (k', v) :: rest => if k' = k then some v else assocLookup rest k

/-- In-place update of the entry with key `k`, the model of `HashMap::get_mut`
followed by a mutation (a no-op when the key is absent). -/
def assocModify {κ α : Type} [DecidableEq κ] (m : List (κ × α)) (k : κ) (f : α → α) :
    List (κ × α) :=
  match m with
  | [] => []
  | (k', v) :: rest =>
    if k' = k then (k, f v) :: assocModify rest k f
    else (k', v) :: assocModify rest k f

/-- The model of `HashMap::insert`: replace the existing entry, or append. -/
def assocInsert {κ α : Type} [DecidableEq κ] (m : List (κ × α)) (k : κ) (v : α) :
    List (κ × α) :=
  if (assocLookup m k).isSome then assocModify m k (fun _ => v) else m ++ [(k, v)]

/-- The model of `HashMap::remove`. -/
def assocErase {κ α : Type} [DecidableEq κ] (m : List (κ × α)) (k : κ) : List (κ × α) :=
  match m with
  | [] => []
  | (k', v) :: rest =>
    if k' = k then assocErase rest k else (k', v) :: assocErase rest k

/-- Keys are pairwise distinct — the invariant every real `HashMap` satisfies. -/
abbrev NodupKeys {κ α : Type} (m : List (κ × α)) : Prop :=
  (m.map Prod.fst).Nodup

/-- Rust `str::to_lowercase` on the ASCII format tokens the program uses,
modelled character by character (kernel-computable, unlike `String.toLower`,
which it agrees with on these tokens). -/
def lowercase (s : String) : String :=
  ⟨s.data.map Char.toLower⟩

/-! ### `models/job.rs` — `JobStatus` and `ConversionJob` -/

/-- Model of `JobStatus` (the identically-shaped enum appears in `models/job.rs` and
`models.rs`). -/
inductive JobStatus : Type
  | Pending
  | Processing
  | Completed
  | Failed
deriving DecidableEq, Repr

/-- Model of `ConversionJob` from `models/job.rs`. -/
structure ConversionJob : Type where
  id : Nat
  user_id : String
  original_filename : String
  source_format : String
  target_format : String
  engine : String
  status : JobStatus
  output_filename : Option String
  error_message : Option String
  created_at : Int
  completed_at : Option Int
  options : Option String
deriving DecidableEq, Repr

namespace ConversionJob

/-- Model of `ConversionJob::new`; `id` models the fresh `Uuid::new_v4()` and `now`
models `Utc::now()`. -/
def new (id : Nat) (user_id original_filename source_format target_format engine : String)
    (options : Option String) (now : Int) : ConversionJob :=
  { id := id
    user_id := user_id
    original_filename := original_filename
    source_format := source_format
    target_format := target_format
    engine := engine
    status := JobStatus.Pending
    output_filename := none
    error_message := none
    created_at := now
    completed_at := none
    options := options }

/-- Model of `ConversionJob::set_processing`. -/
def set_processing (j : ConversionJob) : ConversionJob :=
  { j with status := JobStatus.Processing }

/-- Model of `ConversionJob::set_completed`. -/
def set_completed (j : ConversionJob) (output_filename : String) (now : Int) : ConversionJob :=
  { j with
    status := JobStatus.Completed
    output_filename := some output_filename
    completed_at := some now }

/-- Model of `ConversionJob::set_failed`. -/
def set_failed (j : ConversionJob) (error_message : String) (now : Int) : ConversionJob :=
  { j with
    status := JobStatus.Failed
    error_message := some error_message
    completed_at := some now }

end ConversionJob

/-! ### `services/dispatcher.rs` — the dispatcher's `JobStore` -/

namespace dispatcher

/-- The dispatcher's private `JobStore`. -/
structure JobStore : Type where
  jobs : List (Nat × ConversionJob)
  user_jobs : List (String × List Nat)
deriving DecidableEq, Repr

/-- The empty store (`JobStore::default()`). -/
def JobStore.empty : JobStore := ⟨[], []⟩

/-- Model of `store.user_jobs.entry(user_id).or_default().push(job_id)`. -/
def pushUserJob (m : List (String × List Nat)) (u : String) (id : Nat) :
    List (String × List Nat) :=
  if (assocLookup m u).isSome then assocModify m u (fun ids => ids ++ [id])
  else m ++ [(u, [id])]

/-- Model of `ConversionDispatcher::create_job`; `id`/`now` model `Uuid::new_v4()` and
`Utc::now()` inside `ConversionJob::new`. -/
def create_job (s : JobStore) (id : Nat) (user_id : String)
    (original_filename source_format target_format engine : String)
    (options : Option String) (now : Int) : JobStore × ConversionJob :=
  let job := ConversionJob.new id user_id original_filename source_format target_format
    engine options now
  ({ jobs := assocInsert s.jobs id job
     user_jobs := pushUserJob s.user_jobs user_id id }, job)

/-- Model of `ConversionDispatcher::get_job`. -/
def get_job (s : JobStore) (job_id : Nat) : Option ConversionJob :=
  assocLookup s.jobs job_id

/-- Model of `ConversionDispatcher::get_user_job` (`get(..).filter(|j| j.user_id == user_id)`). -/
def get_user_job (s : JobStore) (job_id : Nat) (user_id : String) : Option ConversionJob :=
  match assocLookup s.jobs job_id with
  | some j => if j.user_id = user_id then some j else none
  | none => none

/-- Model of `ConversionDispatcher::update_job_status`. -/
def update_job_status (s : JobStore) (job_id : Nat) (status : JobStatus) (now : Int) :
    JobStore :=
  { s with
    jobs := assocModify s.jobs job_id (fun job =>
      let job := { job with status := status }
      if status = JobStatus.Completed ∨ status = JobStatus.Failed then
        { job with completed_at := some now }
      else job) }

/-- Model of `ConversionDispatcher::complete_job`. -/
def complete_job (s : JobStore) (job_id : Nat) (output_filename : String) (now : Int) :
    JobStore :=
  { s with jobs := assocModify s.jobs job_id (fun job => job.set_completed output_filename now) }

/-- Model of `ConversionDispatcher::fail_job`. -/
def fail_job (s : JobStore) (job_id : Nat) (error_message : String) (now : Int) : JobStore :=
  { s with jobs := assocModify s.jobs job_id (fun job => job.set_failed error_message now) }

/-- Model of `ConversionDispatcher::delete_job`. -/
def delete_job (s : JobStore) (job_id : Nat) (user_id : String) : JobStore × Bool :=
  match assocLookup s.jobs job_id with
  | some job =>
    if job.user_id ≠ user_id then (s, false)
    else
      ({ jobs := assocErase s.jobs job_id
         user_jobs := assocModify s.user_jobs user_id (fun ids => ids.filter (· ≠ job_id)) },
       true)
  | none => (s, false)

end dispatcher

/-! ### `services/engine_registry.rs` — `Engine` and `EngineRegistry` -/

namespace engine_registry

/-- Model of `Engine` from `services/engine_registry.rs`; `conversions` maps an input
format to its output formats. -/
structure Engine : Type where
  id : String
  name : String
  description : String
  category : String
  conversions : List (String × List String)
  available : Bool
deriving DecidableEq, Repr

namespace Engine

/-- Model of `Engine::supports_conversion` (note: it does not consult `available`). -/
def supports_conversion (e : Engine) (fm tgt : String) : Bool :=
  match assocLookup e.conversions (lowercase fm) with
  | some outputs => outputs.contains (lowercase tgt)
  | none => false

/-- Model of `Engine::output_formats_for`. -/
def output_formats_for (e : Engine) (fm : String) : List String :=
  (assocLookup e.conversions (lowercase fm)).getD []

end Engine

/-- Model of `EngineRegistry`: the `engines` map keyed by engine id; the list order
abstracts the `HashMap` iteration order. -/
structure EngineRegistry : Type where
  engines : List (String × Engine)
deriving DecidableEq, Repr

namespace EngineRegistry

/-- Model of `EngineRegistry::get`. -/
def get (r : EngineRegistry) (id : String) : Option Engine :=
  assocLookup r.engines id

/-- Model of `EngineRegistry::list` (`engines.values().cloned()` in iteration order). -/
def list (r : EngineRegistry) : List Engine :=
  r.engines.map Prod.snd

/-- Model of `EngineRegistry::find_engines_for`. -/
def find_engines_for (r : EngineRegistry) (fm tgt : String) : List Engine :=
  (r.engines.map Prod.snd).filter (fun e => e.available && e.supports_conversion fm tgt)

/-- Model of `EngineRegistry::get_targets_for`: the result `HashMap` (keyed by engine
id, which is unique in `engines`) is modelled as the association list built in
engine-iteration order. -/
def get_targets_for (r : EngineRegistry) (fm : String) : List (String × List String) :=
  r.engines.filterMap (fun p =>
    match assocLookup p.2.conversions (lowercase fm) with
    | some outputs => if outputs.isEmpty then none else some (p.2.id, outputs)
    | none => none)

end EngineRegistry

end engine_registry

/-! ### `services/dispatcher.rs` — `validate_conversion` -/

namespace dispatcher

open engine_registry

/-- Model of `ValidationResult` from `services/dispatcher.rs`. -/
inductive ValidationResult : Type
  | Valid (engine : String)
  | Invalid (reason : String) (suggestions : List String)
deriving DecidableEq, Repr

/-- Model of `ConversionDispatcher::validate_conversion`. -/
def validate_conversion (r : EngineRegistry) (fm tgt : String) (engine : Option String) :
    ValidationResult :=
  match engine with
  | some engine_id =>
    match r.get engine_id with
    | some eng =>
      if eng.supports_conversion fm tgt then
        ValidationResult.Valid engine_id
      else
        ValidationResult.Invalid
          ("Engine \x27" ++ engine_id ++ "\x27 does not support " ++ fm ++ " → " ++ tgt
            ++ " conversion")
          (eng.output_formats_for fm)
    | none =>
      ValidationResult.Invalid ("Engine \x27" ++ engine_id ++ "\x27 not found")
        (r.list.map (fun e => e.id))
  | none =>
    match r.find_engines_for fm tgt with
    | e :: _ => ValidationResult.Valid e.id
    | [] =>
      let targets := r.get_targets_for fm
      let all_outputs := (targets.map Prod.snd).flatten
      ValidationResult.Invalid
        ("No engine supports " ++ fm ++ " → " ++ tgt ++ " conversion") all_outputs

end dispatcher

/-! ### `engine.rs` — the other generation's `Engine` (flat format lists) -/

namespace enginemod

/-- Model of `Engine` from `engine.rs` (flat `input_formats`/`output_formats` lists and
an `enabled` flag; the opaque `params_schema` JSON blob is dropped). -/
structure Engine : Type where
  engine_id : String
  engine_name : String
  description : String
  enabled : Bool
  input_formats : List String
  output_formats : List String
  max_file_size_mb : Nat
  requires_params : Bool
deriving DecidableEq, Repr

/-- Rust `str::eq_ignore_ascii_case`. -/
def eqIgnoreAsciiCase (a b : String) : Bool :=
  lowercase a == lowercase b

/-- Model of `Engine::supports_conversion` from `engine.rs` — this generation checks
`enabled` first. -/
def Engine.supports_conversion (e : Engine) (input output : String) : Bool :=
  if !e.enabled then false
  else
    (e.input_formats.any (fun f => eqIgnoreAsciiCase f input))
      && (e.output_formats.any (fun f => eqIgnoreAsciiCase f output))

end enginemod

/-! ### `models.rs` / `job.rs` — the other generation's `Job` and `JobStore` -/

namespace jobmod

/-- Model of `Job` from `models.rs` (timestamps are Unix seconds, `progress` is a `u8`
clamped to 0–100 by the store operations). -/
structure Job : Type where
  job_id : String
  user_id : String
  original_filename : String
  input_format : String
  output_format : String
  engine_id : String
  status : JobStatus
  progress : Nat
  error_message : Option String
  output_file : Option String
  created_at : Int
  updated_at : Int
  completed_at : Option Int
deriving DecidableEq, Repr

/-- Model of `Job::new`; `job_id`/`now` model `Uuid::new_v4().to_string()` and
`Utc::now().timestamp()`. -/
def Job.new (job_id user_id original_filename input_format output_format engine_id : String)
    (now : Int) : Job :=
  { job_id := job_id
    user_id := user_id
    original_filename := original_filename
    input_format := input_format
    output_format := output_format
    engine_id := engine_id
    status := JobStatus.Pending
    progress := 0
    error_message := none
    output_file := none
    created_at := now
    updated_at := now
    completed_at := none }

/-- The `job.rs` `JobStore`'s backing map `HashMap<String, Job>`. -/
abbrev JobMap : Type := List (String × Job)

/-- Model of `JobStore::update_status`: sets the status unconditionally, stamps
`updated_at`, and sets `completed_at` only when the new status is `Completed`. -/
def update_status (jobs : JobMap) (job_id : String) (status : JobStatus) (now : Int) :
    JobMap × Option Job :=
  match assocLookup jobs job_id with
  | some job =>
    let j :=
      { job with
        status := status
        updated_at := now
        completed_at := if status = JobStatus.Completed then some now else job.completed_at }
    (assocModify jobs job_id (fun _ => j), some j)
  | none => (jobs, none)

/-- Model of `JobStore::update_progress` (`progress.min(100)` on the `u8` argument). -/
def update_progress (jobs : JobMap) (job_id : String) (progress : Nat) (now : Int) :
    JobMap × Option Job :=
  match assocLookup jobs job_id with
  | some job =>
    let j := { job with progress := min progress 100, updated_at := now }
    (assocModify jobs job_id (fun _ => j), some j)
  | none => (jobs, none)

/-- Model of `JobStore::complete_job`. -/
def complete_job (jobs : JobMap) (job_id : String) (output_file : String) (now : Int) :
    JobMap × Option Job :=
  match assocLookup jobs job_id with
  | some job =>
    let j :=
      { job with
        status := JobStatus.Completed
        progress := 100
        output_file := some output_file
        updated_at := now
        completed_at := some now }
    (assocModify jobs job_id (fun _ => j), some j)
  | none => (jobs, none)

/-- Model of `JobStore::fail_job` (note: it does not touch `completed_at`). -/
def fail_job (jobs : JobMap) (job_id : String) (error_message : String) (now : Int) :
    JobMap × Option Job :=
  match assocLookup jobs job_id with
  | some job =>
    let j :=
      { job with
        status := JobStatus.Failed
        error_message := some error_message
        updated_at := now }
    (assocModify jobs job_id (fun _ => j), some j)
  | none => (jobs, none)

/-- Model of `JobStore::cleanup_old_jobs`: collects the ids of jobs created before
`now - hours*3600`, removes them, and returns the number removed. -/
def cleanup_old_jobs (jobs : JobMap) (hours : Int) (now : Int) : JobMap × Nat :=
  let cutoff := now - hours * 3600
  let old_jobs : List String :=
    (jobs.filter (fun p => p.2.created_at < cutoff)).map Prod.fst
  let count := old_jobs.length
  (old_jobs.foldl (fun acc job_id => assocErase acc job_id) jobs, count)

end jobmod

/-! ### Store invariants and reachable states of the dispatcher's `JobStore` -/

namespace dispatcher

/-- Mutual consistency of the dispatcher's `jobs` map and `user_jobs` index:
every id listed under a user belongs to a stored job of that user, and every
stored job is listed under its own user. -/
def Consistent (s : JobStore) : Prop :=
  (∀ u ids, assocLookup s.user_jobs u = some ids →
    ∀ id ∈ ids, ∃ j, assocLookup s.jobs id = some j ∧ j.user_id = u) ∧
  (∀ id j, assocLookup s.jobs id = some j →
    ∃ ids, assocLookup s.user_jobs j.user_id = some ids ∧ id ∈ ids)

/-- States of the dispatcher's `JobStore` reachable from the empty store by
its operations; `create` carries the freshness of `Uuid::new_v4()` (ids are
never reused). -/
inductive Reach : JobStore → Prop
  | empty : Reach JobStore.empty
  | create {s : JobStore} (id : Nat) (u fn sf tf eng : String) (opts : Option String)
      (now : Int) : Reach s → assocLookup s.jobs id = none →
      Reach (create_job s id u fn sf tf eng opts now).1
  | set_status {s : JobStore} (id : Nat) (st : JobStatus) (now : Int) :
      Reach s → Reach (update_job_status s id st now)
  | complete {s : JobStore} (id : Nat) (out : String) (now : Int) :
      Reach s → Reach (complete_job s id out now)
  | fail {s : JobStore} (id : Nat) (msg : String) (now : Int) :
      Reach s → Reach (fail_job s id msg now)
  | delete {s : JobStore} (id : Nat) (u : String) :
      Reach s → Reach (delete_job s id u).1

end dispatcher

/-! ### Concrete sample data used to evaluate the definitions -/

namespace samples

open engine_registry dispatcher jobmod

/-- An enabled engine `a` converting `x → y`. -/
def engA : Engine :=
  { id := "a", name := "A", description := "", category := "t"
    conversions := [("x", ["y"])], available := true }

/-- An enabled engine `b` converting `x → y`. -/
def engB : Engine :=
  { id := "b", name := "B", description := "", category := "t"
    conversions := [("x", ["y"])], available := true }

/-- A disabled engine `d` whose `conversions` table contains `x → y`. -/
def engD : Engine :=
  { id := "d", name := "D", description := "", category := "t"
    conversions := [("x", ["y"])], available := false }

/-- Registry iterating `a` before `b`. -/
def regAB : EngineRegistry := ⟨[("a", engA), ("b", engB)]⟩

/-- The same registry contents iterating `b` before `a`. -/
def regBA : EngineRegistry := ⟨[("b", engB), ("a", engA)]⟩

/-- Registry holding only the disabled engine `d`. -/
def regD : EngineRegistry := ⟨[("d", engD)]⟩

/-- An enabled engine whose `conversions` table has no entry at all. -/
def engNoKey : Engine :=
  { id := "n", name := "N", description := "", category := "t"
    conversions := [], available := true }

/-- A disabled `engine.rs`-generation engine that lists `x`/`y` formats. -/
def cfgDisabled : enginemod.Engine :=
  { engine_id := "cfgd", engine_name := "CfgD", description := ""
    enabled := false, input_formats := ["x"], output_formats := ["y"]
    max_file_size_mb := 10, requires_params := false }

/-- A `pandoc`-style engine used to instantiate the capability lemmas. -/
def engPandoc : Engine :=
  { id := "pandoc", name := "Pandoc", description := "Universal document converter"
    category := "document"
    conversions := [("md", ["html", "pdf"]), ("html", ["md", "pdf"])], available := true }

/-- A job of user `alice` that has already completed. -/
def jobC : ConversionJob :=
  { id := 1, user_id := "alice", original_filename := "a.md", source_format := "md"
    target_format := "pdf", engine := "pandoc", status := JobStatus.Completed
    output_filename := some "a.pdf", error_message := none, created_at := 0
    completed_at := some 1, options := none }

/-- A dispatcher store holding only the completed job `jobC`. -/
def storeC : JobStore := ⟨[(1, jobC)], [("alice", [1])]⟩

/-- A pending `models.rs` job `j1` of user `alice`. -/
def jPend : Job := Job.new "j1" "alice" "a.md" "md" "pdf" "pandoc" 0

/-- A `job.rs` map holding only the pending job `jPend`. -/
def jmPending : JobMap := [("j1", jPend)]

/-- The job `jPend` after `fail_job` at time 5: `Failed`, yet `completed_at` is `none`. -/
def jFailed : Job :=
  { jPend with status := JobStatus.Failed, error_message := some "boom", updated_at := 5 }

/-- A `job.rs` map with a 25-hour-old job and a 1-hour-old job (now = 360000). -/
def jmAges : JobMap :=
  [("old", Job.new "old" "alice" "a.md" "md" "pdf" "pandoc" (360000 - 25 * 3600)),
   ("young", Job.new "young" "alice" "b.md" "md" "pdf" "pandoc" (360000 - 1 * 3600))]

end samples

/-! ## Theorems -/

/-! ### Association-list lemmas -/

theorem assocLookup_modify {κ α : Type} [DecidableEq κ] (m : List (κ × α)) (k k' : κ)
    (f : α → α) :
    assocLookup (assocModify m k f) k' =
      if k' = k then (assocLookup m k).map f else assocLookup m k' := by
  induction m with
  | nil => simp [assocModify, assocLookup]
  | cons p rest ih =>
    obtain ⟨a, v⟩ := p
    by_cases h1 : a = k
    · subst h1
      by_cases h2 : k' = a
      · subst h2; simp [assocModify, assocLookup]
      · have h2' : ¬ a = k' := fun h => h2 h.symm
        simp [assocModify, assocLookup, h2, h2', ih]
    · by_cases h2 : a = k'
      · subst h2
        have hk : ¬ a = k := h1
        simp [assocModify, assocLookup, h1, hk]
      · simp [assocModify, assocLookup, h1, h2, ih]

theorem assocLookup_append_some {κ α : Type} [DecidableEq κ] {m : List (κ × α)}
    (m₂ : List (κ × α)) {k : κ} {v : α} (h : assocLookup m k = some v) :
    assocLookup (m ++ m₂) k = some v := by
  induction m with
  | nil => simp [assocLookup] at h
  | cons p rest ih =>
    by_cases hp : p.1 = k
    · simp [assocLookup, hp] at h ⊢; exact h
    · simp [assocLookup, hp] at h ⊢; exact ih h

theorem assocLookup_append_none {κ α : Type} [DecidableEq κ] {m : List (κ × α)}
    (m₂ : List (κ × α)) {k : κ} (h : assocLookup m k = none) :
    assocLookup (m ++ m₂) k = assocLookup m₂ k := by
  induction m with
  | nil => simp [assocLookup]
  | cons p rest ih =>
    by_cases hp : p.1 = k
    · simp [assocLookup, hp] at h
    · simp [assocLookup, hp] at h ⊢; exact ih h

theorem assocInsert_of_lookup_none {κ α : Type} [DecidableEq κ] {m : List (κ × α)} {k : κ}
    (v : α) (h : assocLookup m k = none) : assocInsert m k v = m ++ [(k, v)] := by
  simp [assocInsert, h]

theorem assocLookup_erase {κ α : Type} [DecidableEq κ] (m : List (κ × α)) (k k' : κ) :
    assocLookup (assocErase m k) k' =
      if k' = k then none else assocLookup m k' := by
  induction m with
  | nil => simp [assocErase, assocLookup]
  | cons p rest ih =>
    obtain ⟨a, v⟩ := p
    by_cases h1 : a = k
    · subst h1
      by_cases h2 : k' = a
      · subst h2; simp [assocErase, assocLookup, ih]
      · have h2' : ¬ a = k' := fun h => h2 h.symm
        simp [assocErase, assocLookup, h2, h2', ih]
    · by_cases h2 : a = k'
      · subst h2
        simp [assocErase, assocLookup, h1]
      · simp [assocErase, assocLookup, h1, h2, ih]

theorem assocModify_of_lookup_none {κ α : Type} [DecidableEq κ] {m : List (κ × α)} {k : κ}
    (f : α → α) (h : assocLookup m k = none) : assocModify m k f = m := by
  induction m with
  | nil => rfl
  | cons p rest ih =>
    obtain ⟨a, v⟩ := p
    by_cases ha : a = k
    · simp [assocLookup, ha] at h
    · simp only [assocLookup, if_neg ha] at h
      simp [assocModify, ha, ih h]

/-! ### Claim C1 — terminal states are not frozen -/

/-- C1 (counterexample): the job store's transitions are not monotone — on the
store `storeC`, whose only job is already `Completed`, `fail_job` changes the
job's fields (status becomes `Failed`), so a call on a terminal job is not a
no-op. -/
theorem terminal_job_mutates_cex :
    samples.jobC.status = JobStatus.Completed ∧
    dispatcher.get_job (dispatcher.fail_job samples.storeC 1 "boom" 5) 1
      = some (samples.jobC.set_failed "boom" 5) ∧
    samples.jobC.set_failed "boom" 5 ≠ samples.jobC := by
  refine ⟨by decide, ?_, by decide⟩
  decide

/-- C1 (amended): none of the mutation operations guards on the current
status. On any job present in the store — terminal or not — `fail_job`,
`complete_job`, `update_job_status` (dispatcher) and `fail_job`,
`complete_job`, `update_progress` (`job.rs`) apply their mutation
unconditionally; only a missing job id makes the call a no-op. -/
theorem mutation_ops_unguarded (s : dispatcher.JobStore) (id : Nat) (j : ConversionJob)
    (jm : jobmod.JobMap) (sid : String) (q : jobmod.Job)
    (msg out : String) (st : JobStatus) (p : Nat) (now : Int)
    (hj : assocLookup s.jobs id = some j) (hq : assocLookup jm sid = some q) :
    dispatcher.get_job (dispatcher.fail_job s id msg now) id
        = some (j.set_failed msg now) ∧
    dispatcher.get_job (dispatcher.complete_job s id out now) id
        = some (j.set_completed out now) ∧
    dispatcher.get_job (dispatcher.update_job_status s id st now) id
        = some (if st = JobStatus.Completed ∨ st = JobStatus.Failed then
            { j with status := st, completed_at := some now }
          else { j with status := st }) ∧
    (jobmod.fail_job jm sid msg now).2
        = some { q with
                 status := JobStatus.Failed
                 error_message := some msg
                 updated_at := now } ∧
    (jobmod.complete_job jm sid out now).2
        = some { q with
                 status := JobStatus.Completed
                 progress := 100
                 output_file := some out
                 updated_at := now
                 completed_at := some now } ∧
    (jobmod.update_status jm sid st now).2
        = some { q with
                 status := st
                 updated_at := now
                 completed_at :=
                   if st = JobStatus.Completed then some now else q.completed_at } ∧
    (jobmod.update_progress jm sid p now).2
        = some { q with progress := min p 100, updated_at := now } ∧
    (∀ (s' : dispatcher.JobStore) (id' : Nat), assocLookup s'.jobs id' = none →
      dispatcher.fail_job s' id' msg now = s' ∧
      dispatcher.complete_job s' id' out now = s' ∧
      dispatcher.update_job_status s' id' st now = s') ∧
    (∀ (jm' : jobmod.JobMap) (sid' : String), assocLookup jm' sid' = none →
      jobmod.fail_job jm' sid' msg now = (jm', none) ∧
      jobmod.complete_job jm' sid' out now = (jm', none) ∧
      jobmod.update_status jm' sid' st now = (jm', none) ∧
      jobmod.update_progress jm' sid' p now = (jm', none)) := by
  refine ⟨?_, ?_, ?_, ?_, ?_, ?_, ?_, ?_, ?_⟩
  · simp [dispatcher.fail_job, dispatcher.get_job, assocLookup_modify, hj]
  · simp [dispatcher.complete_job, dispatcher.get_job, assocLookup_modify, hj]
  · simp [dispatcher.update_job_status, dispatcher.get_job, assocLookup_modify, hj]
  · simp [jobmod.fail_job, hq]
  · simp [jobmod.complete_job, hq]
  · simp [jobmod.update_status, hq]
  · simp [jobmod.update_progress, hq]
  · intro s' id' hnone
    refine ⟨?_, ?_, ?_⟩ <;>
      simp [dispatcher.fail_job, dispatcher.complete_job, dispatcher.update_job_status,
        assocModify_of_lookup_none _ hnone]
  · intro jm' sid' hnone
    exact ⟨by simp [jobmod.fail_job, hnone], by simp [jobmod.complete_job, hnone],
      by simp [jobmod.update_status, hnone], by simp [jobmod.update_progress, hnone]⟩

/-- Witness for `mutation_ops_unguarded` at the concrete store `storeC` (whose
job 1 is already `Completed`) and the concrete map `jmPending`. -/
theorem mutation_ops_unguarded_witness :
    assocLookup samples.storeC.jobs 1 = some samples.jobC ∧
    assocLookup samples.jmPending "j1" = some samples.jPend ∧
    dispatcher.get_job (dispatcher.fail_job samples.storeC 1 "boom" 5) 1
      = some (samples.jobC.set_failed "boom" 5) ∧
    assocLookup samples.storeC.jobs 2 = none ∧
    dispatcher.fail_job samples.storeC 2 "boom" 5 = samples.storeC :=
  ⟨by decide, by decide,
   (mutation_ops_unguarded samples.storeC 1 samples.jobC samples.jmPending "j1" samples.jPend
      "boom" "out.pdf" JobStatus.Processing 50 5 (by decide) (by decide)).1,
   by decide,
   ((mutation_ops_unguarded samples.storeC 1 samples.jobC samples.jmPending "j1" samples.jPend
      "boom" "out.pdf" JobStatus.Processing 50 5 (by decide)
      (by decide)).2.2.2.2.2.2.2.1 samples.storeC 2 (by decide)).1⟩

/-! ### Claim C2 — ownership is not observable through `get_user_job` -/

/-- C2: `get_user_job` returns `none` both when the job id is absent and when
the stored job's `user_id` differs from the caller — the two cases are
indistinguishable by the returned value. -/
theorem get_user_job_hides_ownership (s : dispatcher.JobStore) (id : Nat) (owner : String) :
    (∀ j, assocLookup s.jobs id = some j → j.user_id ≠ owner →
        dispatcher.get_user_job s id owner = none) ∧
    (assocLookup s.jobs id = none → dispatcher.get_user_job s id owner = none) := by
  constructor
  · intro j hj hne
    simp [dispatcher.get_user_job, hj, hne]
  · intro h
    simp [dispatcher.get_user_job, h]

/-- Witness for `get_user_job_hides_ownership`: on `storeC`, the foreign
caller `bob` gets `none` for alice's existing job 1 and `none` for the
non-existent job 2. -/
theorem get_user_job_hides_ownership_witness :
    assocLookup samples.storeC.jobs 1 = some samples.jobC ∧
    samples.jobC.user_id ≠ "bob" ∧
    dispatcher.get_user_job samples.storeC 1 "bob" = none ∧
    assocLookup samples.storeC.jobs 2 = none ∧
    dispatcher.get_user_job samples.storeC 2 "bob" = none :=
  ⟨by decide, by decide,
   (get_user_job_hides_ownership samples.storeC 1 "bob").1 samples.jobC (by decide) (by decide),
   by decide,
   (get_user_job_hides_ownership samples.storeC 2 "bob").2 (by decide)⟩

/-! ### Claim C6 — `supports` agrees with `outputs_for` and is case-insensitive -/

/-- C6: for every engine, `supports_conversion a b` holds exactly when the
lowercased `b` is a member of `output_formats_for a`, and both format
arguments are case-insensitive. -/
theorem supports_iff_member_outputs (e : engine_registry.Engine) (a b a' b' : String)
    (ha : lowercase a = lowercase a') (hb : lowercase b = lowercase b') :
    (e.supports_conversion a b = true ↔
      (e.output_formats_for a).contains (lowercase b) = true) ∧
    e.supports_conversion a b = e.supports_conversion a' b' := by
  constructor
  · unfold engine_registry.Engine.supports_conversion engine_registry.Engine.output_formats_for
    cases h : assocLookup e.conversions (lowercase a) <;> simp [h]
  · unfold engine_registry.Engine.supports_conversion
    rw [ha, hb]

/-- Witness for `supports_iff_member_outputs` at the `pandoc` sample engine
with mixed-case arguments (`supports(E,"MD","Pdf") == supports(E,"md","pdf")`). -/
theorem supports_iff_member_outputs_witness :
    lowercase "MD" = lowercase "md" ∧ lowercase "Pdf" = lowercase "pdf" ∧
    ((samples.engPandoc.supports_conversion "MD" "Pdf" = true ↔
        (samples.engPandoc.output_formats_for "MD").contains (lowercase "Pdf") = true) ∧
      samples.engPandoc.supports_conversion "MD" "Pdf"
        = samples.engPandoc.supports_conversion "md" "pdf") :=
  ⟨by decide, by decide,
   supports_iff_member_outputs samples.engPandoc "MD" "Pdf" "md" "pdf" (by decide) (by decide)⟩

/-! ### Claim C3 — resolution order dependence -/

/-- C3 (counterexample): two registries holding exactly the same engine
entries (a permutation, i.e. the same `HashMap` contents under a different
iteration order) resolve `x → y` to different engines, so the choice is not
determined by engine id order and not independent of iteration order. -/
theorem resolve_order_dependent_cex :
    dispatcher.validate_conversion samples.regAB "x" "y" none
      = dispatcher.ValidationResult.Valid "a" ∧
    dispatcher.validate_conversion samples.regBA "x" "y" none
      = dispatcher.ValidationResult.Valid "b" ∧
    samples.regAB.engines.Perm samples.regBA.engines ∧
    dispatcher.validate_conversion samples.regAB "x" "y" none
      ≠ dispatcher.validate_conversion samples.regBA "x" "y" none := by
  refine ⟨by decide, by decide, ?_, by decide⟩
  exact List.Perm.swap _ _ _

/-- C3 (amended): with no preferred engine, `validate_conversion` returns the
first engine of the table's iteration order that is available and supports
the conversion (no tie-break by id), and the result is a pure function of the
table state: any registry with the same `engines` sequence resolves
identically. -/
theorem resolve_picks_first_in_iteration_order (r : engine_registry.EngineRegistry)
    (fm tgt : String) (e : engine_registry.Engine) (rest : List engine_registry.Engine)
    (h : r.find_engines_for fm tgt = e :: rest) :
    dispatcher.validate_conversion r fm tgt none
      = dispatcher.ValidationResult.Valid e.id ∧
    e.available = true ∧ e.supports_conversion fm tgt = true ∧
    (∀ r' : engine_registry.EngineRegistry, r'.engines = r.engines →
      dispatcher.validate_conversion r' fm tgt none
        = dispatcher.validate_conversion r fm tgt none) := by
  have hmem : e ∈ r.find_engines_for fm tgt := h ▸ List.mem_cons_self e rest
  unfold engine_registry.EngineRegistry.find_engines_for at hmem
  have hpred := List.of_mem_filter hmem
  refine ⟨?_, ?_, ?_, ?_⟩
  · simp only [dispatcher.validate_conversion, h]
  · exact (Bool.and_eq_true _ _ |>.mp hpred).1
  · exact (Bool.and_eq_true _ _ |>.mp hpred).2
  · intro r' hr
    have : r' = r := by cases r'; cases r; simpa using hr
    rw [this]

/-- Witness for `resolve_picks_first_in_iteration_order` at the two-engine
registry `regAB`. -/
theorem resolve_picks_first_witness :
    samples.regAB.find_engines_for "x" "y" = samples.engA :: [samples.engB] ∧
    dispatcher.validate_conversion samples.regAB "x" "y" none
      = dispatcher.ValidationResult.Valid samples.engA.id ∧
    samples.engA.available = true :=
  ⟨by decide,
   (resolve_picks_first_in_iteration_order samples.regAB "x" "y" samples.engA
      [samples.engB] (by decide)).1,
   (resolve_picks_first_in_iteration_order samples.regAB "x" "y" samples.engA
      [samples.engB] (by decide)).2.1⟩

/-! ### Claim C4 — when `supports` is false, and the disabled-engine hole -/

/-- C4 (counterexample): the registry generation's `supports_conversion`
ignores `available`, and `validate_conversion` accepts a disabled engine when
it is named as the preferred engine: disabled `d` still resolves as Valid. -/
theorem disabled_preferred_accepted_cex :
    samples.engD.available = false ∧
    samples.engD.supports_conversion "x" "y" = true ∧
    dispatcher.validate_conversion samples.regD "x" "y" (some "d")
      = dispatcher.ValidationResult.Valid "d" := by
  exact ⟨rfl, by decide, by decide⟩

/-- C4 (amended): `supports_conversion` is false when `from` is not a key of
the engine's `conversions` or `to` is not in that key's set; an unknown
preferred engine makes `validate_conversion` return Invalid "not found"; the
disabled check holds in the `engine.rs` generation's `supports_conversion`
and in no-preference resolution (`find_engines_for` keeps only available
engines) — but not in the registry generation's `supports_conversion`. -/
theorem supports_false_cases
    (e eOut : engine_registry.Engine) (outs : List String)
    (e2 : enginemod.Engine) (r : engine_registry.EngineRegistry)
    (eid fm tgt : String)
    (hkey : assocLookup e.conversions (lowercase fm) = none)
    (houts : assocLookup eOut.conversions (lowercase fm) = some outs)
    (hnot : outs.contains (lowercase tgt) = false)
    (hmiss : r.get eid = none)
    (hdis : e2.enabled = false) :
    e.supports_conversion fm tgt = false ∧
    eOut.supports_conversion fm tgt = false ∧
    dispatcher.validate_conversion r fm tgt (some eid)
      = dispatcher.ValidationResult.Invalid ("Engine \x27" ++ eid ++ "\x27 not found")
          (r.list.map (fun x => x.id)) ∧
    e2.supports_conversion fm tgt = false ∧
    (∀ x ∈ r.find_engines_for fm tgt, x.available = true) := by
  refine ⟨?_, ?_, ?_, ?_, ?_⟩
  · simp [engine_registry.Engine.supports_conversion, hkey]
  · simp only [engine_registry.Engine.supports_conversion, houts]
    simpa using hnot
  · simp only [dispatcher.validate_conversion, hmiss]
  · simp [enginemod.Engine.supports_conversion, hdis]
  · intro x hx
    unfold engine_registry.EngineRegistry.find_engines_for at hx
    exact (Bool.and_eq_true _ _ |>.mp (List.mem_filter.mp hx).2).1

/-- Witness for `supports_false_cases` at concrete engines: `engNoKey` has no
entry for `x`, `engA` maps `x` only to `y` (so not to `z`), registry `regAB`
has no engine `zz`, and `cfgDisabled` is disabled. -/
theorem supports_false_cases_witness :
    assocLookup samples.engNoKey.conversions (lowercase "x") = none ∧
    assocLookup samples.engA.conversions (lowercase "x") = some ["y"] ∧
    (["y"].contains (lowercase "z")) = false ∧
    samples.regAB.get "zz" = none ∧
    samples.cfgDisabled.enabled = false ∧
    samples.engNoKey.supports_conversion "x" "z" = false ∧
    samples.cfgDisabled.supports_conversion "x" "y" = false :=
  ⟨by decide, by decide, by decide, by decide, by decide,
   (supports_false_cases samples.engNoKey samples.engA ["y"] samples.cfgDisabled
      samples.regAB "zz" "x" "z" (by decide) (by decide) (by decide) (by decide)
      (by decide)).1,
   (supports_false_cases samples.engNoKey samples.engA ["y"] samples.cfgDisabled
      samples.regAB "zz" "x" "z" (by decide) (by decide) (by decide) (by decide)
      (by decide)).2.2.2.1⟩

/-! ### Claim C5 — the no-engine branch and its suggestions -/

/-- C5 (counterexample): with two engines each mapping `x → [y]`, the
suggestions returned for the unsupported conversion `x → z` are `["y", "y"]`
— the flattened concatenation, which contains a duplicate, not the
de-duplicated union `["y"]`. -/
theorem suggestions_not_deduped_cex :
    dispatcher.validate_conversion samples.regAB "x" "z" none
      = dispatcher.ValidationResult.Invalid "No engine supports x → z conversion"
          ["y", "y"] ∧
    ¬ (["y", "y"] : List String).Nodup := by
  exact ⟨by decide, by decide⟩

/-- C5 (amended): when no preferred engine is given and no enabled engine
supports the conversion, the result is Invalid with the stated reason and
with suggestions equal to the concatenation (duplicates retained) of every
engine's output list for `from`, which is empty when `from` is unknown to
every engine. -/
theorem no_engine_branch (r : engine_registry.EngineRegistry) (fm tgt : String)
    (h : r.find_engines_for fm tgt = []) :
    dispatcher.validate_conversion r fm tgt none
      = dispatcher.ValidationResult.Invalid
          ("No engine supports " ++ fm ++ " → " ++ tgt ++ " conversion")
          ((r.get_targets_for fm).map Prod.snd).flatten ∧
    ((∀ p ∈ r.engines, assocLookup p.2.conversions (lowercase fm) = none) →
      ((r.get_targets_for fm).map Prod.snd).flatten = []) := by
  constructor
  · simp only [dispatcher.validate_conversion, h]
  · intro hall
    have ht : r.get_targets_for fm = [] := by
      unfold engine_registry.EngineRegistry.get_targets_for
      rw [List.filterMap_eq_nil_iff]
      intro p hp
      rw [hall p hp]
    rw [ht]
    rfl

/-- Witness for `no_engine_branch`: the input format `q` is unknown to every
engine of `regAB`, so the suggestions are empty. -/
theorem no_engine_branch_witness :
    samples.regAB.find_engines_for "q" "y" = [] ∧
    (dispatcher.validate_conversion samples.regAB "q" "y" none
      = dispatcher.ValidationResult.Invalid
          ("No engine supports " ++ "q" ++ " → " ++ "y" ++ " conversion")
          ((samples.regAB.get_targets_for "q").map Prod.snd).flatten ∧
      ((∀ p ∈ samples.regAB.engines,
          assocLookup p.2.conversions (lowercase "q") = none) →
        ((samples.regAB.get_targets_for "q").map Prod.snd).flatten = [])) :=
  ⟨by decide, no_engine_branch samples.regAB "q" "y" (by decide)⟩

/-! ### Claim C8 — when `completed_at` is written -/

/-- C8 (counterexample): `JobStore::fail_job` moves the pending job `j1` into
the terminal state `Failed` without setting `completed_at` — contradicting
"a transition to Failed also sets completed_at". -/
theorem fail_leaves_completed_at_cex :
    (jobmod.fail_job samples.jmPending "j1" "boom" 5).2 = some samples.jFailed ∧
    samples.jFailed.status = JobStatus.Failed ∧
    samples.jFailed.completed_at = none := by
  exact ⟨by decide, by decide, by decide⟩

/-- C8 (amended): `completed_at` is stamped with the current time on every
call that moves a job into `Completed` (`JobStore::update_status` with
`Completed`, `JobStore::complete_job`) and, in the `models/job.rs`
generation, by every `set_completed`/`set_failed` application — overwriting
any earlier value rather than being set exactly once; `JobStore::fail_job`
(and `update_status` with any non-`Completed` status) leaves `completed_at`
unchanged, so a job that fails through `job.rs` never acquires it. -/
theorem completed_at_behaviour (jm : jobmod.JobMap) (sid : String) (q : jobmod.Job)
    (st : JobStatus) (out msg : String) (now : Int) (cj : ConversionJob)
    (hq : assocLookup jm sid = some q) :
    (jobmod.update_status jm sid st now).2
      = some { q with
               status := st
               updated_at := now
               completed_at :=
                 if st = JobStatus.Completed then some now else q.completed_at } ∧
    (jobmod.complete_job jm sid out now).2
      = some { q with
               status := JobStatus.Completed
               progress := 100
               output_file := some out
               updated_at := now
               completed_at := some now } ∧
    (jobmod.fail_job jm sid msg now).2
      = some { q with
               status := JobStatus.Failed
               error_message := some msg
               updated_at := now } ∧
    (cj.set_completed out now).completed_at = some now ∧
    (cj.set_failed msg now).completed_at = some now := by
  refine ⟨?_, ?_, ?_, rfl, rfl⟩
  · simp [jobmod.update_status, hq]
  · simp [jobmod.complete_job, hq]
  · simp [jobmod.fail_job, hq]

/-- Witness for `completed_at_behaviour` on the concrete map `jmPending`. -/
theorem completed_at_behaviour_witness :
    assocLookup samples.jmPending "j1" = some samples.jPend ∧
    (jobmod.fail_job samples.jmPending "j1" "boom" 5).2
      = some { samples.jPend with
               status := JobStatus.Failed
               error_message := some "boom"
               updated_at := 5 } ∧
    ((samples.jobC.set_failed "boom" 5).completed_at = some 5) :=
  ⟨by decide,
   (completed_at_behaviour samples.jmPending "j1" samples.jPend JobStatus.Failed
      "out.pdf" "boom" 5 samples.jobC (by decide)).2.2.1,
   (completed_at_behaviour samples.jmPending "j1" samples.jPend JobStatus.Failed
      "out.pdf" "boom" 5 samples.jobC (by decide)).2.2.2.2⟩

/-! ### Claim C9 — the retention sweep removes exactly the old jobs -/

theorem assocErase_eq_filter {κ α : Type} [DecidableEq κ] (m : List (κ × α)) (k : κ) :
    assocErase m k = m.filter (fun p => decide (p.1 ≠ k)) := by
  induction m with
  | nil => simp [assocErase]
  | cons p rest ih =>
    obtain ⟨a, v⟩ := p
    by_cases h : a = k <;> simp [assocErase, h, ih]

theorem foldl_assocErase {κ α : Type} [DecidableEq κ] (ids : List κ) (m : List (κ × α)) :
    ids.foldl (fun acc k => assocErase acc k) m
      = m.filter (fun p => decide (p.1 ∉ ids)) := by
  induction ids generalizing m with
  | nil => simp
  | cons i ids ih =>
    rw [List.foldl_cons, ih, assocErase_eq_filter, List.filter_filter]
    refine List.filter_congr ?_
    intro p hp
    simp [List.mem_cons, not_or, Bool.and_comm]

/-- C9: with unique keys (as in the real `HashMap`), `cleanup_old_jobs`
removes exactly the jobs created strictly before `now - hours*3600`, keeps
every younger job unchanged, and returns the number of removed jobs. -/
theorem cleanup_removes_exactly_old (jm : jobmod.JobMap) (hours now : Int)
    (hnd : NodupKeys jm) :
    jobmod.cleanup_old_jobs jm hours now
      = (jm.filter (fun p => decide (now - hours * 3600 ≤ p.2.created_at)),
         (jm.filter (fun p => decide (p.2.created_at < now - hours * 3600))).length) ∧
    (∀ sid j, (sid, j) ∈ jm →
      ((sid, j) ∈ (jobmod.cleanup_old_jobs jm hours now).1 ↔
        ¬ j.created_at < now - hours * 3600)) := by
  have e1 : (jobmod.cleanup_old_jobs jm hours now).1
      = jm.filter (fun p => decide (p.1 ∉
          (jm.filter (fun p => decide (p.2.created_at < now - hours * 3600))).map
            Prod.fst)) :=
    foldl_assocErase _ _
  have hfc : jm.filter (fun p => decide (p.1 ∉
        (jm.filter (fun p => decide (p.2.created_at < now - hours * 3600))).map
          Prod.fst))
      = jm.filter (fun p => decide (now - hours * 3600 ≤ p.2.created_at)) := by
    refine List.filter_congr ?_
    intro p hp
    by_cases hold : p.2.created_at < now - hours * 3600
    · have hmem : p.1 ∈ (jm.filter
          (fun p => decide (p.2.created_at < now - hours * 3600))).map Prod.fst :=
        List.mem_map_of_mem _ (List.mem_filter.mpr ⟨hp, by simpa using hold⟩)
      simp [hmem, not_le.mpr hold]
    · have hni : p.1 ∉ (jm.filter
          (fun p => decide (p.2.created_at < now - hours * 3600))).map Prod.fst := by
        intro hmem
        obtain ⟨q, hq, hqk⟩ := List.mem_map.mp hmem
        have hq' := List.mem_filter.mp hq
        have hqp : q = p := List.inj_on_of_nodup_map hnd hq'.1 hp hqk
        subst hqp
        exact hold (by simpa using hq'.2)
      simp [hni, not_lt.mp hold]
  have e2 : (jobmod.cleanup_old_jobs jm hours now).2
      = (jm.filter (fun p => decide (p.2.created_at < now - hours * 3600))).length :=
    List.length_map _ _
  have hmain : jobmod.cleanup_old_jobs jm hours now
      = (jm.filter (fun p => decide (now - hours * 3600 ≤ p.2.created_at)),
         (jm.filter (fun p => decide (p.2.created_at < now - hours * 3600))).length) := by
    rw [← Prod.mk.eta (p := jobmod.cleanup_old_jobs jm hours now), e1, hfc, e2]
  refine ⟨hmain, ?_⟩
  intro sid j hj
  rw [hmain]
  simp only [List.mem_filter]
  constructor
  · intro h
    simpa [not_lt] using h.2
  · intro h
    exact ⟨hj, by simpa [not_lt] using h⟩

/-- Witness for `cleanup_removes_exactly_old` on `jmAges` (a 25-hour-old job
and a 1-hour-old job at `now = 360000`, `max_age` 24 h): the old job is
removed, the young one survives, and the count is 1. -/
theorem cleanup_removes_exactly_old_witness :
    NodupKeys samples.jmAges ∧
    (jobmod.cleanup_old_jobs samples.jmAges 24 360000).1
      = samples.jmAges.filter
          (fun p => decide (360000 - 24 * 3600 ≤ p.2.created_at)) ∧
    (jobmod.cleanup_old_jobs samples.jmAges 24 360000).2 = 1 :=
  ⟨by decide,
   congrArg Prod.fst (cleanup_removes_exactly_old samples.jmAges 24 360000 (by decide)).1,
   by decide⟩

/-! ### Lemmas about the user-job index -/

theorem assocLookup_pushUserJob_self (m : List (String × List Nat)) (u : String) (id : Nat) :
    assocLookup (dispatcher.pushUserJob m u id) u
      = some (((assocLookup m u).getD []) ++ [id]) := by
  unfold dispatcher.pushUserJob
  cases h : assocLookup m u with
  | some ids => simp [h, assocLookup_modify]
  | none =>
    rw [if_neg (by simp [h])]
    rw [assocLookup_append_none _ h]
    simp [assocLookup]

theorem assocLookup_pushUserJob_ne (m : List (String × List Nat)) (u u' : String) (id : Nat)
    (hne : u' ≠ u) :
    assocLookup (dispatcher.pushUserJob m u id) u' = assocLookup m u' := by
  unfold dispatcher.pushUserJob
  cases h : assocLookup m u with
  | some ids =>
    rw [if_pos (by simp [h])]
    rw [assocLookup_modify, if_neg hne]
  | none =>
    rw [if_neg (by simp [h])]
    cases h' : assocLookup m u' with
    | some v => rw [assocLookup_append_some _ h']
    | none =>
      rw [assocLookup_append_none _ h']
      simp [assocLookup, Ne.symm hne]

/-! ### Claim C7 — `delete_job` is ownership-guarded and atomic -/

/-- C7: `delete_job` returns `false` and leaves the store untouched unless the
job exists and belongs to `owner`; when it returns `true` the job record is
gone, the id is gone from the owner's index list, and (when the store was
consistent) from every user's index list — no stale entry survives. -/
theorem delete_job_correct (s : dispatcher.JobStore) (id : Nat) (owner : String) :
    ((∀ j, assocLookup s.jobs id = some j → j.user_id ≠ owner) →
      dispatcher.delete_job s id owner = (s, false)) ∧
    ((dispatcher.delete_job s id owner).2 = true →
      assocLookup (dispatcher.delete_job s id owner).1.jobs id = none ∧
      (∀ ids, assocLookup (dispatcher.delete_job s id owner).1.user_jobs owner = some ids →
        id ∉ ids) ∧
      (dispatcher.Consistent s → ∀ u ids,
        assocLookup (dispatcher.delete_job s id owner).1.user_jobs u = some ids →
        id ∉ ids)) := by
  cases h : assocLookup s.jobs id with
  | none =>
    have hd : dispatcher.delete_job s id owner = (s, false) := by
      simp [dispatcher.delete_job, h]
    exact ⟨fun _ => hd, fun htrue => by rw [hd] at htrue; cases htrue⟩
  | some j =>
    by_cases howner : j.user_id = owner
    · have hdj : (dispatcher.delete_job s id owner).1.jobs = assocErase s.jobs id := by
        simp [dispatcher.delete_job, h, howner]
      have hdu : (dispatcher.delete_job s id owner).1.user_jobs
          = assocModify s.user_jobs owner (fun ids => ids.filter (· ≠ id)) := by
        simp [dispatcher.delete_job, h, howner]
      constructor
      · intro hno
        exact absurd howner (hno j rfl)
      · intro _
        refine ⟨?_, ?_, ?_⟩
        · rw [hdj]
          simpa using assocLookup_erase s.jobs id id
        · intro ids hids
          rw [hdu, assocLookup_modify, if_pos rfl] at hids
          cases hlu : assocLookup s.user_jobs owner with
          | none => rw [hlu] at hids; cases hids
          | some ids0 =>
            rw [hlu] at hids
            simp only [Option.map_some'] at hids
            intro hmem
            rw [← Option.some_inj.mp hids] at hmem
            have := (List.mem_filter.mp hmem).2
            simp at this
        · intro hc u ids hids
          rw [hdu, assocLookup_modify] at hids
          by_cases hu : u = owner
          · rw [if_pos hu] at hids
            cases hlu : assocLookup s.user_jobs owner with
            | none => rw [hlu] at hids; cases hids
            | some ids0 =>
              rw [hlu] at hids
              simp only [Option.map_some'] at hids
              intro hmem
              rw [← Option.some_inj.mp hids] at hmem
              have := (List.mem_filter.mp hmem).2
              simp at this
          · rw [if_neg hu] at hids
            intro hmem
            obtain ⟨j', hj', hju⟩ := hc.1 u ids hids id hmem
            rw [h] at hj'
            rw [← Option.some_inj.mp hj'] at hju
            exact hu (hju ▸ howner)
    · have hd : dispatcher.delete_job s id owner = (s, false) := by
        simp [dispatcher.delete_job, h, howner]
      exact ⟨fun _ => hd, fun htrue => by rw [hd] at htrue; cases htrue⟩

/-- Witness for `delete_job_correct`: on `storeC`, `bob` cannot delete
alice's job 1 (store unchanged, `false`), while `alice` can, and the record
is gone afterwards. -/
theorem delete_job_correct_witness :
    dispatcher.delete_job samples.storeC 1 "bob" = (samples.storeC, false) ∧
    (dispatcher.delete_job samples.storeC 1 "alice").2 = true ∧
    assocLookup (dispatcher.delete_job samples.storeC 1 "alice").1.jobs 1 = none :=
  ⟨(delete_job_correct samples.storeC 1 "bob").1 (fun j hj => by
      have h0 : assocLookup samples.storeC.jobs 1 = some samples.jobC := by decide
      rw [h0] at hj
      cases hj
      decide),
   by decide,
   ((delete_job_correct samples.storeC 1 "alice").2 (by decide)).1⟩

/-! ### Claim C10 — the jobs map and the user index stay in sync -/

theorem consistent_empty : dispatcher.Consistent dispatcher.JobStore.empty := by
  refine ⟨?_, ?_⟩
  · intro u ids hids
    simp [dispatcher.JobStore.empty, assocLookup] at hids
  · intro id j hj
    simp [dispatcher.JobStore.empty, assocLookup] at hj

theorem consistent_modify (s : dispatcher.JobStore) (id : Nat)
    (f : ConversionJob → ConversionJob) (hf : ∀ j, (f j).user_id = j.user_id)
    (hc : dispatcher.Consistent s) :
    dispatcher.Consistent { s with jobs := assocModify s.jobs id f } := by
  obtain ⟨h1, h2⟩ := hc
  constructor
  · intro u ids hids id' hid'
    obtain ⟨j, hj, hju⟩ := h1 u ids hids id' hid'
    by_cases hi : id' = id
    · subst hi
      exact ⟨f j, by rw [assocLookup_modify, if_pos rfl, hj]; rfl, by rw [hf]; exact hju⟩
    · exact ⟨j, by rw [assocLookup_modify, if_neg hi]; exact hj, hju⟩
  · intro id' j' hj'
    rw [assocLookup_modify] at hj'
    by_cases hi : id' = id
    · rw [if_pos hi] at hj'
      cases hjold : assocLookup s.jobs id with
      | none => rw [hjold] at hj'; cases hj'
      | some j0 =>
        rw [hjold] at hj'
        simp only [Option.map_some'] at hj'
        obtain ⟨ids, hids, hmem⟩ := h2 id' j0 (by rw [hi]; exact hjold)
        refine ⟨ids, ?_, hmem⟩
        rw [← Option.some_inj.mp hj', hf]
        exact hids
    · rw [if_neg hi] at hj'
      exact h2 id' j' hj'

theorem consistent_create (s : dispatcher.JobStore) (id : Nat)
    (u fn sf tf eng : String) (opts : Option String) (now : Int)
    (hfresh : assocLookup s.jobs id = none) (hc : dispatcher.Consistent s) :
    dispatcher.Consistent (dispatcher.create_job s id u fn sf tf eng opts now).1 := by
  obtain ⟨h1, h2⟩ := hc
  have hjobs : (dispatcher.create_job s id u fn sf tf eng opts now).1.jobs
      = s.jobs ++ [(id, ConversionJob.new id u fn sf tf eng opts now)] := by
    simp only [dispatcher.create_job]
    exact assocInsert_of_lookup_none _ hfresh
  have husers : (dispatcher.create_job s id u fn sf tf eng opts now).1.user_jobs
      = dispatcher.pushUserJob s.user_jobs u id := rfl
  constructor
  · intro u' ids' hids' id' hid'
    rw [husers] at hids'
    by_cases hu : u' = u
    · subst hu
      rw [assocLookup_pushUserJob_self] at hids'
      rw [← Option.some_inj.mp hids'] at hid'
      rcases List.mem_append.mp hid' with hold | hnew
      · cases hlu : assocLookup s.user_jobs u' with
        | none => rw [hlu] at hold; cases hold
        | some ids0 =>
          rw [hlu] at hold
          obtain ⟨j, hj, hju⟩ := h1 u' ids0 hlu id' hold
          exact ⟨j, by rw [hjobs]; exact assocLookup_append_some _ hj, hju⟩
      · have hid : id' = id := by simpa using hnew
        subst hid
        refine ⟨ConversionJob.new id' u' fn sf tf eng opts now, ?_, rfl⟩
        rw [hjobs, assocLookup_append_none _ hfresh]
        simp [assocLookup]
    · rw [assocLookup_pushUserJob_ne _ _ _ _ hu] at hids'
      obtain ⟨j, hj, hju⟩ := h1 u' ids' hids' id' hid'
      exact ⟨j, by rw [hjobs]; exact assocLookup_append_some _ hj, hju⟩
  · intro id' j' hj'
    rw [hjobs] at hj'
    cases hold : assocLookup s.jobs id' with
    | some j0 =>
      rw [assocLookup_append_some _ hold] at hj'
      obtain ⟨ids0, hids0, hmem⟩ := h2 id' j0 hold
      rw [← Option.some_inj.mp hj']
      by_cases hu : j0.user_id = u
      · rw [hu] at hids0
        refine ⟨(ids0 ++ [id]), ?_, List.mem_append.mpr (Or.inl hmem)⟩
        rw [husers, hu, assocLookup_pushUserJob_self, hids0]
        rfl
      · exact ⟨ids0, by rw [husers, assocLookup_pushUserJob_ne _ _ _ _ hu]; exact hids0, hmem⟩
    | none =>
      rw [assocLookup_append_none _ hold] at hj'
      by_cases hi : id = id'
      · have hj'' : j' = ConversionJob.new id u fn sf tf eng opts now := by
          rw [show assocLookup [(id, ConversionJob.new id u fn sf tf eng opts now)] id'
              = some (ConversionJob.new id u fn sf tf eng opts now) by
            simp [assocLookup, hi]] at hj'
          exact (Option.some_inj.mp hj').symm
        subst hj''
        refine ⟨((assocLookup s.user_jobs u).getD []) ++ [id], ?_, ?_⟩
        · rw [husers]
          exact assocLookup_pushUserJob_self s.user_jobs u id
        · exact List.mem_append.mpr (Or.inr (by simp [← hi]))
      · rw [show assocLookup [(id, ConversionJob.new id u fn sf tf eng opts now)] id' = none by
          simp [assocLookup, hi]] at hj'
        cases hj'

theorem consistent_delete (s : dispatcher.JobStore) (id : Nat) (u : String)
    (hc : dispatcher.Consistent s) :
    dispatcher.Consistent (dispatcher.delete_job s id u).1 := by
  cases h : assocLookup s.jobs id with
  | none =>
    have hd : (dispatcher.delete_job s id u).1 = s := by simp [dispatcher.delete_job, h]
    rw [hd]; exact hc
  | some j =>
    by_cases howner : j.user_id = u
    · have hdj : (dispatcher.delete_job s id u).1.jobs = assocErase s.jobs id := by
        simp [dispatcher.delete_job, h, howner]
      have hdu : (dispatcher.delete_job s id u).1.user_jobs
          = assocModify s.user_jobs u (fun ids => ids.filter (· ≠ id)) := by
        simp [dispatcher.delete_job, h, howner]
      obtain ⟨h1, h2⟩ := hc
      constructor
      · intro u' ids' hids' id' hid'
        rw [hdu, assocLookup_modify] at hids'
        rw [hdj]
        by_cases hu : u' = u
        · rw [if_pos hu] at hids'
          cases hlu : assocLookup s.user_jobs u with
          | none => rw [hlu] at hids'; cases hids'
          | some ids0 =>
            rw [hlu] at hids'
            simp only [Option.map_some'] at hids'
            rw [← Option.some_inj.mp hids'] at hid'
            have hm := List.mem_filter.mp hid'
            have hne : id' ≠ id := by simpa using hm.2
            obtain ⟨j0, hj0, hju⟩ := h1 u ids0 hlu id' hm.1
            exact ⟨j0, by rw [assocLookup_erase, if_neg hne]; exact hj0, hu ▸ hju⟩
        · rw [if_neg hu] at hids'
          obtain ⟨j0, hj0, hju⟩ := h1 u' ids' hids' id' hid'
          have hne : id' ≠ id := by
            intro e
            rw [e, h] at hj0
            rw [← Option.some_inj.mp hj0] at hju
            exact hu (hju ▸ howner)
          exact ⟨j0, by rw [assocLookup_erase, if_neg hne]; exact hj0, hju⟩
      · intro id' j' hj'
        rw [hdj, assocLookup_erase] at hj'
        rw [hdu]
        by_cases hi : id' = id
        · rw [if_pos hi] at hj'; cases hj'
        · rw [if_neg hi] at hj'
          obtain ⟨ids0, hids0, hmem⟩ := h2 id' j' hj'
          by_cases hu : j'.user_id = u
          · rw [hu] at hids0
            refine ⟨ids0.filter (· ≠ id), ?_, ?_⟩
            · rw [assocLookup_modify, if_pos hu, hids0]
              rfl
            · exact List.mem_filter.mpr ⟨hmem, by simpa using hi⟩
          · exact ⟨ids0, by rw [assocLookup_modify, if_neg hu]; exact hids0, hmem⟩
    · have hd : (dispatcher.delete_job s id u).1 = s := by
        simp [dispatcher.delete_job, h, howner]
      rw [hd]; exact hc

/-- C10: every store reachable from the empty store by `create_job`,
`update_job_status`, `complete_job`, `fail_job` and `delete_job` keeps the
jobs map and the `user_jobs` index mutually consistent: each listed id is a
stored job of that user, and each stored job is listed under its own user. -/
theorem reachable_store_consistent (s : dispatcher.JobStore) (h : dispatcher.Reach s) :
    dispatcher.Consistent s := by
  induction h with
  | empty => exact consistent_empty
  | create id u fn sf tf eng opts now _ hfresh ih =>
    exact consistent_create _ id u fn sf tf eng opts now hfresh ih
  | set_status id st now _ ih =>
    exact consistent_modify _ id _
      (fun j => by
        by_cases hst : st = JobStatus.Completed ∨ st = JobStatus.Failed <;> simp [hst]) ih
  | complete id out now _ ih =>
    exact consistent_modify _ id _ (fun j => rfl) ih
  | fail id msg now _ ih =>
    exact consistent_modify _ id _ (fun j => rfl) ih
  | delete id u _ ih =>
    exact consistent_delete _ id u ih

/-- Witness for `reachable_store_consistent`: the store obtained by one
`create_job` on the empty store is reachable and consistent. -/
theorem reachable_store_consistent_witness :
    dispatcher.Consistent
      (dispatcher.create_job dispatcher.JobStore.empty 1 "alice" "a.md" "md" "pdf"
        "pandoc" none 0).1 :=
  reachable_store_consistent _
    (dispatcher.Reach.create 1 "alice" "a.md" "md" "pdf" "pandoc" none 0
      dispatcher.Reach.empty (by decide))

end ConvertX
